import Mathlib

/-
Verification of the keypoint data-acquisition / preprocessing pipeline of the
asl-2d-to-3d notebooks.

The pipeline is embedded shallowly:
  * per-frame JSON records become Lean structures (a person entry per modality);
  * Python exceptions become an explicit `PyExc` error type threaded through
    `Except`; where the source mutates lists in place inside a `try:` block,
    the embedding returns the partially-updated state together with the
    exception, exactly as CPython leaves the mutated lists behind;
  * float values of the extractor stage are modelled as exact rationals
    (the extractor only rearranges values, it never computes with them);
  * the normalizer stage models floats as exact reals and NaN (the
    missing-value marker produced by `np.nan` padding) as `Option.none`.
-/

namespace ASL

/-- Scalar landmark values of the extractor stage (exact model of the floats,
which are only moved around, never combined, by the extractors). -/
abbrev Val : Type := Rat

/-- Python exceptions observable in the embedded code. -/
inductive PyExc where
  | keyError (k : String)
  | indexError (msg : String)
  | valueError (msg : String)
  | unboundLocal (v : String)
deriving DecidableEq

/-- `str(e)` for the exceptions above, as CPython 3.7 renders them. -/
def pyStr : PyExc → String
  | .keyError k => "\x27" ++ k ++ "\x27"
  | .indexError m => m
  | .valueError m => m
  | .unboundLocal v => "local variable \x27" ++ v ++ "\x27 referenced before assignment"

/-- Substring test, modelling Python `pat in s`. -/
def containsStr (s pat : String) : Bool :=
  (s.toList.tails).any (fun t => pat.toList.isPrefixOf t)

/-- Python list indexing `xs[i]`, raising IndexError when out of range. -/
def listGet {β : Type} (xs : List β) (i : Nat) : Except PyExc β :=
  match xs.get? i with
  | some a => .ok a
  | none => .error (.indexError "list index out of range")

/-- Python dict access `person[key]` where the sub-record may be absent. -/
def keyGet {β : Type} (h : Option β) (key : String) : Except PyExc β :=
  match h with
  | some v => .ok v
  | none => .error (.keyError key)

/-- Left-to-right effectful map, modelling a Python list comprehension that can
raise: the first exception aborts the comprehension. -/
def mapE {ε β γ : Type} (f : β → Except ε γ) : List β → Except ε (List γ)
  | [] => .ok []
  | a :: l => do
    let b ← f a
    let rest ← mapE f l
    pure (b :: rest)

/-- Elements of `xs` at indices `k, k + step, k + 2*step, ...`
(helper for Python extended slices). -/
def everyNthAux {β : Type} (step : Nat) : Nat → List β → List β
  | _, [] => []
  | 0, a :: rest => a :: everyNthAux step (step - 1) rest
  | k + 1, _ :: rest => everyNthAux step k rest

/-- Python slice `xs[start::step]`. -/
def pySliceStep {β : Type} (xs : List β) (start step : Nat) : List β :=
  everyNthAux step start xs

/-- `interleave [a1,a2,...] [b1,b2,...] = [a1,b1,a2,b2,...]` (stops at the
shorter list). -/
def interleave {β : Type} : List β → List β → List β
  | a :: as, b :: bs => a :: b :: interleave as bs
  | _, _ => []

/-- `two_coord = [l[item] for item in range(len(x)) for l in [x, y]]` from
`get_face`/`get_body`: interleaves `x` and `y` by index, raising IndexError
when `y` is shorter than `x`. -/
def twoCoord (x y : List Val) : Except PyExc (List Val) := do
  let parts ← mapE
    (fun item => do
      let a ← listGet x item
      let b ← listGet y item
      pure [a, b])
    (List.range x.length)
  pure parts.flatten

/-- The 2-tuple `([], [])` of per-slot sequences used by every extractor. -/
abbrev SlotSeqs (β : Type) : Type := List β × List β

/-- `seq[i].append(v)` on the 2-tuple of slot sequences: slots 0 and 1 exist,
any other index raises the tuple IndexError. -/
def appendSlot {β : Type} (sl : SlotSeqs β) (i : Nat) (v : β) :
    Except PyExc (SlotSeqs β) :=
  if i = 0 then .ok (sl.1 ++ [v], sl.2)
  else if i = 1 then .ok (sl.1, sl.2 ++ [v])
  else .error (.indexError "tuple index out of range")

/-- Python `max` over a list of lengths; raises ValueError on an empty list. -/
def pyMax (xs : List Nat) : Except PyExc Nat :=
  match xs with
  | [] => .error (.valueError "max arg is an empty sequence")
  | a :: rest => .ok (rest.foldl max a)

/-! ### Face extractor (`get_face`) -/

/-- One entry of the `people` array of a face frame json:
`{id, face70: {landmarks}}`. -/
structure FacePerson where
  id : Int
  landmarks : List Val
deriving DecidableEq

/-- Per-person body of the `get_face` loop:
`x = lm[::3]`, `y = lm[1::3]`, `two_coord = [l[item] ...]`,
`third_coord = lm[2::3]`. -/
def facePersonCoords (lm : List Val) : Except PyExc (List Val × List Val) := do
  let x := pySliceStep lm 0 3
  let y := pySliceStep lm 1 3
  let two ← twoCoord x y
  let third := pySliceStep lm 2 3
  pure (two, third)

/-- The `for person in json_array['people']` loop with the running slot
counter `i` (reset to 0 for each frame). -/
def facePeople (people : List FacePerson) (s2 s3 : SlotSeqs (List Val))
    (i : Nat) : Except PyExc (SlotSeqs (List Val) × SlotSeqs (List Val) × Nat) :=
  match people with
  | [] => .ok (s2, s3, i)
  | person :: rest =>
    if person.id ≠ -1 then do
      let c ← facePersonCoords person.landmarks
      let s2a ← appendSlot s2 i c.1
      let s3a ← appendSlot s3 i c.2
      facePeople rest s2a s3a (i + 1)
    else facePeople rest s2 s3 i

/-- Processing of one face frame: the person loop followed by the
`if i < 2:` zero-vector padding (which appends to slot `i` only). -/
def faceFrameStep (st : SlotSeqs (List Val) × SlotSeqs (List Val))
    (people : List FacePerson) :
    Except PyExc (SlotSeqs (List Val) × SlotSeqs (List Val)) := do
  let (s2, s3, i) ← facePeople people st.1 st.2 0
  if i < 2 then do
    let s2a ← appendSlot s2 i (List.replicate 140 (0 : Val))
    let s3a ← appendSlot s3 i (List.replicate 70 (0 : Val))
    pure (s2a, s3a)
  else pure (s2, s3)

/-- `get_face`: `frames` is the sorted list of parsed frame files of
`hdFace3d`; the code iterates `files[1:]` (the first frame is blank). -/
def get_face (frames : List (List FacePerson)) :
    Except PyExc (SlotSeqs (List Val) × SlotSeqs (List Val)) :=
  (frames.drop 1).foldlM faceFrameStep (([], []), ([], []))

/-! ### Body extractor (`get_body`) -/

/-- One entry of the `bodies` array of a body frame json: `{id, joints26}`,
the flat list laid out `[x1,y1,z1,acc1,x2,...]`. -/
structure BodyPerson where
  id : Int
  joints26 : List Val
deriving DecidableEq

/-- Per-person body of the `get_body` loop: strides 4 instead of 3,
confidence (stride 3 mod 4) never read. -/
def bodyPersonCoords (lm : List Val) : Except PyExc (List Val × List Val) := do
  let x := pySliceStep lm 0 4
  let y := pySliceStep lm 1 4
  let two ← twoCoord x y
  let third := pySliceStep lm 2 4
  pure (two, third)

/-- The `for person in json_array['bodies']` loop of `get_body`. -/
def bodyPeople (people : List BodyPerson) (s2 s3 : SlotSeqs (List Val))
    (i : Nat) : Except PyExc (SlotSeqs (List Val) × SlotSeqs (List Val) × Nat) :=
  match people with
  | [] => .ok (s2, s3, i)
  | person :: rest =>
    if person.id ≠ -1 then do
      let c ← bodyPersonCoords person.joints26
      let s2a ← appendSlot s2 i c.1
      let s3a ← appendSlot s3 i c.2
      bodyPeople rest s2a s3a (i + 1)
    else bodyPeople rest s2 s3 i

/-- Processing of one body frame (zero widths 52 / 26). -/
def bodyFrameStep (st : SlotSeqs (List Val) × SlotSeqs (List Val))
    (people : List BodyPerson) :
    Except PyExc (SlotSeqs (List Val) × SlotSeqs (List Val)) := do
  let (s2, s3, i) ← bodyPeople people st.1 st.2 0
  if i < 2 then do
    let s2a ← appendSlot s2 i (List.replicate 52 (0 : Val))
    let s3a ← appendSlot s3 i (List.replicate 26 (0 : Val))
    pure (s2a, s3a)
  else pure (s2, s3)

/-- `get_body`: iterates `files[:-1]` (the last frame is blank). -/
def get_body (frames : List (List BodyPerson)) :
    Except PyExc (SlotSeqs (List Val) × SlotSeqs (List Val)) :=
  frames.dropLast.foldlM bodyFrameStep (([], []), ([], []))

/-! ### Hands extractor (`get_hands`) -/

/-- One entry of the `people` array of a hands frame json:
`{id, left_hand?: {landmarks}, right_hand?: {landmarks}}`; either hand
sub-record may be absent. -/
structure HandsPerson where
  id : Int
  left_hand : Option (List Val)
  right_hand : Option (List Val)
deriving DecidableEq

/-- Values the local variables `hands` / `hands_3d` of `get_hands` can hold:
the `try:` body binds them to a pair of per-hand lists, the recovery branches
bind them to one flat list. -/
inductive HVal where
  | flat (v : List Val)
  | pair (a b : List Val)
deriving DecidableEq

/-- `[person[hand]['landmarks'][c] for c in range(rLen) if (c+1)%3 != 0]`:
the filter keeps the x/y strides; the `person[hand]` lookup happens for each
kept index (the first failure raises), and a short landmark list raises
IndexError. -/
def handXY (h : Option (List Val)) (key : String) (rLen : Nat) :
    Except PyExc (List Val) :=
  mapE
    (fun c => do
      let lm ← keyGet h key
      listGet lm c)
    ((List.range rLen).filter (fun c => (c + 1) % 3 != 0))

/-- The mutable state of one `get_hands` call: the two slot-sequence tuples
plus the function-local bindings of `hands` and `hands_3d` (unbound before
their first assignment, and persisting across loop iterations). -/
structure HandsSt where
  s2 : SlotSeqs HVal
  s3 : SlotSeqs HVal
  hands : Option HVal
  hands3d : Option HVal
deriving DecidableEq

/-- The `try:` body of the `get_hands` person loop. Python mutates the slot
sequences and the local bindings before a later statement can raise, so the
body returns the state reached so far together with the exception, if any.
Evaluation order follows CPython: the comprehension for `left_hand`
evaluates `range(len(person['right_hand']['landmarks']))` first, so a missing
right hand raises before a missing left hand is noticed. -/
def handsTryBody (p : HandsPerson) (i : Nat) (st : HandsSt) :
    HandsSt × Option PyExc :=
  match keyGet p.right_hand "right_hand" with
  | .error e => (st, some e)
  | .ok r0 =>
    match handXY p.left_hand "left_hand" r0.length with
    | .error e => (st, some e)
    | .ok hl =>
      match keyGet p.right_hand "right_hand" with
      | .error e => (st, some e)
      | .ok r1 =>
        match handXY p.right_hand "right_hand" r1.length with
        | .error e => (st, some e)
        | .ok hr =>
          let st1 := { st with hands := some (HVal.pair hl hr) }
          match appendSlot st1.s2 i (HVal.flat (hl ++ hr)) with
          | .error e => (st1, some e)
          | .ok s2a =>
            let st2 := { st1 with s2 := s2a }
            match keyGet p.left_hand "left_hand" with
            | .error e => (st2, some e)
            | .ok lz =>
              match keyGet p.right_hand "right_hand" with
              | .error e => (st2, some e)
              | .ok rz =>
                let st3 := { st2 with
                  hands3d := some (HVal.pair (pySliceStep lz 2 3) (pySliceStep rz 2 3)) }
                match appendSlot st3.s3 i
                    (HVal.flat (pySliceStep lz 2 3 ++ pySliceStep rz 2 3)) with
                | .error e => (st3, some e)
                | .ok s3a => ({ st3 with s3 := s3a }, none)

/-- The `if 'left_hand' in str(e): ... elif 'right_hand' in str(e): ...`
dispatch of the `except` block, updating the `hands` / `hands_3d` bindings.
The `elif` branch re-reads `person['left_hand']` and its exception is not
caught; when neither substring matches, the bindings are left as they were. -/
def handsRecover (p : HandsPerson) (e : PyExc) (st : HandsSt) :
    Except PyExc HandsSt :=
  if containsStr (pyStr e) "left_hand" then
    match (do
        let r ← keyGet p.right_hand "right_hand"
        let xy ← handXY p.right_hand "right_hand" r.length
        let rz ← keyGet p.right_hand "right_hand"
        pure (List.replicate 42 (0 : Val) ++ xy,
              List.replicate 21 (0 : Val) ++ pySliceStep rz 2 3) :
        Except PyExc (List Val × List Val)) with
    | .ok v =>
      .ok { st with hands := some (.flat v.1), hands3d := some (.flat v.2) }
    | .error _ =>
      .ok { st with hands := some (.flat (List.replicate 84 (0 : Val))),
                    hands3d := some (.flat (List.replicate 42 (0 : Val))) }
  else if containsStr (pyStr e) "right_hand" then do
    let l ← keyGet p.left_hand "left_hand"
    let xy ← handXY p.left_hand "left_hand" l.length
    let lz ← keyGet p.left_hand "left_hand"
    pure { st with
      hands := some (.flat (xy ++ List.replicate 42 (0 : Val))),
      hands3d := some (.flat (pySliceStep lz 2 3 ++ List.replicate 21 (0 : Val))) }
  else
    .ok st

/-- The whole `except Exception as e:` block: dispatch, then
`hand_2D_seq[i].append(hands)` and `hand_3D_seq[i].append(hands_3d)`, which
raise UnboundLocalError when the corresponding variable was never assigned. -/
def handsExceptBlock (p : HandsPerson) (e : PyExc) (i : Nat) (st : HandsSt) :
    Except PyExc HandsSt := do
  let st1 ← handsRecover p e st
  let hv ← match st1.hands with
    | some v => pure v
    | none => Except.error (.unboundLocal "hands")
  let s2a ← appendSlot st1.s2 i hv
  let h3v ← match st1.hands3d with
    | some v => pure v
    | none => Except.error (.unboundLocal "hands_3d")
  let s3a ← appendSlot st1.s3 i h3v
  pure { st1 with s2 := s2a, s3 := s3a }

/-- One valid person entry of a hands frame: the `try:` body, falling back to
the `except` block on an exception. -/
def handsPersonStep (p : HandsPerson) (i : Nat) (st : HandsSt) :
    Except PyExc HandsSt :=
  match handsTryBody p i st with
  | (st1, none) => .ok st1
  | (st1, some e) => handsExceptBlock p e i st1

/-- The `for person in json_array['people']` loop of `get_hands`. -/
def handsPeople (people : List HandsPerson) (st : HandsSt) (i : Nat) :
    Except PyExc (HandsSt × Nat) :=
  match people with
  | [] => .ok (st, i)
  | p :: rest =>
    if p.id ≠ -1 then do
      let st1 ← handsPersonStep p i st
      handsPeople rest st1 (i + 1)
    else handsPeople rest st i

/-- Processing of one hands frame (zero widths 84 / 42 for the
under-detection padding). -/
def handsFrameStep (st : HandsSt) (people : List HandsPerson) :
    Except PyExc HandsSt := do
  let (st1, i) ← handsPeople people st 0
  if i < 2 then do
    let s2a ← appendSlot st1.s2 i (HVal.flat (List.replicate 84 (0 : Val)))
    let s3a ← appendSlot st1.s3 i (HVal.flat (List.replicate 42 (0 : Val)))
    pure { st1 with s2 := s2a, s3 := s3a }
  else pure st1

/-- `get_hands`: iterates `files[1:-1]` (first and last frames are blank);
the `hands` / `hands_3d` bindings start unbound. -/
def get_hands (frames : List (List HandsPerson)) : Except PyExc HandsSt :=
  ((frames.drop 1).dropLast).foldlM handsFrameStep
    { s2 := ([], []), s3 := ([], []), hands := none, hands3d := none }

/-! ### Sequence padder (`padding_seq`, Stats notebook version) -/

/-- `padding_seq`: `max_seq = max([len(x) for x in dataset])`, then each
sequence is right-padded with `[np.nan]*len(seq[0])` rows until it reaches
`max_seq`. The in-place `seq.append` loop appends the same row
`max_seq - len(seq)` times, because `seq[0]` never changes; if the loop runs
at least once on an empty sequence, `seq[0]` raises IndexError. The Python
function mutates `dataset` and returns `max_seq`; the embedding returns the
padded dataset alongside. `none` models the `np.nan` missing-value marker. -/
def padding_seq {α : Type} (dataset : List (List (List (Option α)))) :
    Except PyExc (Nat × List (List (List (Option α)))) := do
  let max_seq ← pyMax (dataset.map List.length)
  let out ← mapE
    (fun seq =>
      if max_seq ≤ seq.length then pure seq
      else do
        let first ← listGet seq 0
        pure (seq ++ List.replicate (max_seq - seq.length)
          (List.replicate first.length (none : Option α))))
    dataset
  pure (max_seq, out)

/-! ### Normalizer (`normalize`, LSTM notebook)

The padded corpus is a rectangular (slots, time, channels) tensor of floats
where `np.nan` marks missing values.  Values are modelled as exact reals and
NaN as `Option.none`; `np.nanmean` / `np.nanstd` aggregate over the non-NaN
entries only. -/

/-- A (slots, time, channels) tensor with NaN modelled as `none`. -/
abbrev Tensor : Type := List (List (List (Option Real)))

/-- The non-missing entries of a list of values. -/
def validVals (l : List (Option Real)) : List Real := l.filterMap id

/-- Arithmetic mean of a list of reals (junk value 0 on the empty list,
where numpy would produce NaN with a "Mean of empty slice" warning). -/
noncomputable def meanR (l : List Real) : Real := l.sum / l.length

/-- Population variance of a list of reals. -/
noncomputable def varR (l : List Real) : Real :=
  ((l.map (fun x => (x - meanR l) ^ 2)).sum) / l.length

/-- `np.nanmean`: mean of the non-missing entries. -/
noncomputable def nanmean (l : List (Option Real)) : Real := meanR (validVals l)

/-- `np.nanstd`: standard deviation of the non-missing entries. -/
noncomputable def nanstd (l : List (Option Real)) : Real :=
  Real.sqrt (varR (validVals l))

/-- All entries of `tensor[:, :, k::c]`, flattened over slots and time. -/
def gather (t : Tensor) (c k : Nat) : List (Option Real) :=
  t.flatMap (fun slot => slot.flatMap (fun row => pySliceStep row k c))

/-- `np.divide x s` applied to an already-subtracted entry.  A zero divisor
makes numpy produce a non-finite float: NaN for `0.0/0.0`, ±Inf for a
nonzero numerator; the Option model folds every non-finite result into
`none` alongside NaN.  Inside `normalize` the divisor is the sub-channel's
own nanstd, and a zero nanstd forces every valid entry of that sub-channel
to equal its mean (`zero_std_forces_mean` below), so the numerator is then
always zero and the only non-finite value the program actually produces
here is the `0.0/0.0` NaN. -/
noncomputable def pyDiv (x s : Real) : Option Real :=
  if s = 0 then none else some (x / s)

/-- One pass `subtensor = tensor[:, :, j::c]; subtensor[:] = (subtensor - m)/s`
of the normalizer loop: entries at channel positions congruent to `j` mod `c`
are rescaled in place; NaN entries stay NaN, and `np.divide` by a zero std
turns the entry non-finite (see `pyDiv`). -/
noncomputable def subStep (c : Nat) (m s : Real) (j : Nat) (t : Tensor) :
    Tensor :=
  t.map (fun slot => slot.map (fun row =>
    row.enum.map (fun pe =>
      if pe.1 % c = j then pe.2.bind (fun v => pyDiv (v - m) s) else pe.2)))

/-- `normalize(tensor, coordinates=c)`: per-sub-channel nanmean/nanstd are
computed first, then each sub-channel is rescaled in place; returns the
rescaled tensor together with the `[(mean, std)]` list. -/
noncomputable def normalize (t : Tensor) (c : Nat) : Tensor × List (Real × Real) :=
  let mean_value := (List.range c).map (fun i => nanmean (gather t c i))
  let std_value := (List.range c).map (fun i => nanstd (gather t c i))
  let t1 := (List.range c).foldl
    (fun acc j => subStep c (mean_value.getD j 0) (std_value.getD j 0) j acc) t
  (t1, (List.range c).map (fun i => (mean_value.getD i 0, std_value.getD i 0)))

/-- Entry of a tensor at (slot, time, channel), when all three are in range. -/
def getEntry (t : Tensor) (s i p : Nat) : Option (Option Real) :=
  (t.get? s).bind (fun slot => (slot.get? i).bind (fun row => row.get? p))

/-! ### Train/validation/test partitioner -/

/-- Python 3 `round` on an exact rational: round half to even. -/
def pyRound (q : Rat) : Int :=
  if Int.fract q = 1 / 2 then
    (if 2 ∣ ⌊q⌋ then ⌊q⌋ else ⌊q⌋ + 1)
  else round q

/-- `round(0.67 * N)`, the train/validation boundary (exact-rational model of
the float product). -/
def splitBound1 (N : Nat) : Nat := (pyRound ((67 * N : Rat) / 100)).toNat

/-- `round(0.85 * N)`, the validation/test boundary. -/
def splitBound2 (N : Nat) : Nat := (pyRound ((85 * N : Rat) / 100)).toNat

/-- `dataset[:round(0.67*l1)], dataset[round(0.67*l1):round(0.85*l1)],
dataset[round(0.85*l1):]`. -/
def splitDataset {α : Type} (t : List α) : List α × List α × List α :=
  let b1 := splitBound1 t.length
  let b2 := splitBound2 t.length
  (t.take b1, (t.drop b1).take (b2 - b1), t.drop b2)

/-! ### Basic lemmas about the embedded list primitives -/

theorem listGet_eq_ok {β : Type} (xs : List β) (i : Nat) (d : β)
    (h : i < xs.length) : listGet xs i = .ok (xs.getD i d) := by
  rw [listGet, List.get?_eq_get h, List.getD_eq_get xs d h]

theorem mapE_ok_of_forall {ε β γ : Type} {f : β → Except ε γ} {g : β → γ} :
    ∀ {l : List β}, (∀ a ∈ l, f a = .ok (g a)) → mapE f l = .ok (l.map g)
  | [], _ => rfl
  | a :: l, h => by
    rw [mapE, List.map_cons, h a (List.mem_cons_self a l),
      mapE_ok_of_forall (fun b hb => h b (List.mem_cons_of_mem a hb))]
    rfl

theorem everyNthAux_nil {β : Type} (step k : Nat) :
    everyNthAux (β := β) step k [] = [] := by
  rw [everyNthAux]

theorem everyNthAux_zero {β : Type} (step : Nat) (a : β) (rest : List β) :
    everyNthAux step 0 (a :: rest) = a :: everyNthAux step (step - 1) rest := by
  rw [everyNthAux]

theorem everyNthAux_succ {β : Type} (step k : Nat) (a : β) (rest : List β) :
    everyNthAux step (k + 1) (a :: rest) = everyNthAux step k rest := by
  rw [everyNthAux]

theorem everyNthAux_get? {β : Type} (step : Nat) (hs : 0 < step) :
    ∀ (xs : List β) (k j : Nat),
      (everyNthAux step k xs).get? j = xs.get? (k + step * j)
  | [], k, j => by rw [everyNthAux_nil]; simp
  | a :: rest, 0, 0 => by rw [everyNthAux_zero]; simp
  | a :: rest, 0, j + 1 => by
    have h2 : 0 + step * (j + 1) = (step - 1 + step * j) + 1 := by
      rw [Nat.mul_succ]; omega
    rw [everyNthAux_zero, List.get?_cons_succ,
      everyNthAux_get? step hs rest (step - 1) j, h2, List.get?_cons_succ]
  | a :: rest, k + 1, j => by
    have h2 : k + 1 + step * j = (k + step * j) + 1 := by omega
    rw [everyNthAux_succ, everyNthAux_get? step hs rest k j, h2,
      List.get?_cons_succ]

theorem everyNthAux_length {β : Type} (step : Nat) (hs : 0 < step) :
    ∀ (xs : List β) (k : Nat),
      (everyNthAux step k xs).length = (xs.length - k + step - 1) / step
  | [], k => by
    rw [everyNthAux_nil]
    simp only [List.length_nil]
    rw [show 0 - k + step - 1 = step - 1 from by omega,
      Nat.div_eq_of_lt (by omega)]
  | a :: rest, 0 => by
    rw [everyNthAux_zero, List.length_cons,
      everyNthAux_length step hs rest (step - 1), List.length_cons]
    rcases Nat.le_total (step - 1) rest.length with h | h
    · rw [show rest.length - (step - 1) + step - 1 = rest.length from by omega,
        show rest.length + 1 - 0 + step - 1 = rest.length + step from by omega,
        Nat.add_div_right _ hs]
    · rw [show rest.length - (step - 1) + step - 1 = step - 1 from by omega,
        show rest.length + 1 - 0 + step - 1 = rest.length + step from by omega,
        Nat.add_div_right _ hs, Nat.div_eq_of_lt (show step - 1 < step by omega),
        Nat.div_eq_of_lt (show rest.length < step by omega)]
  | a :: rest, k + 1 => by
    rw [everyNthAux_succ, everyNthAux_length step hs rest k, List.length_cons,
      show rest.length + 1 - (k + 1) = rest.length - k from by omega]

theorem pySliceStep_get? {β : Type} (xs : List β) (start step j : Nat)
    (hs : 0 < step) :
    (pySliceStep xs start step).get? j = xs.get? (start + step * j) :=
  everyNthAux_get? step hs xs start j

theorem pySliceStep_length {β : Type} (xs : List β) (start step : Nat)
    (hs : 0 < step) :
    (pySliceStep xs start step).length = (xs.length - start + step - 1) / step :=
  everyNthAux_length step hs xs start

theorem interleave_length {β : Type} :
    ∀ (xs ys : List β), xs.length = ys.length →
      (interleave xs ys).length = 2 * xs.length
  | [], [], _ => rfl
  | [], _ :: _, hlen => absurd hlen (by simp)
  | _ :: _, [], hlen => absurd hlen (by simp)
  | x :: xs, y :: ys, hlen => by
    rw [interleave, List.length_cons, List.length_cons,
      interleave_length xs ys (by simpa using hlen)]
    simp only [List.length_cons]
    ring

theorem interleave_get?_even {β : Type} :
    ∀ (xs ys : List β), xs.length = ys.length →
      ∀ j, (interleave xs ys).get? (2 * j) = xs.get? j
  | [], [], _, _ => rfl
  | [], _ :: _, hlen, _ => absurd hlen (by simp)
  | _ :: _, [], hlen, _ => absurd hlen (by simp)
  | x :: xs, y :: ys, hlen, 0 => rfl
  | x :: xs, y :: ys, hlen, j + 1 => by
    rw [interleave]
    have h2 : 2 * (j + 1) = 2 * j + 1 + 1 := by ring
    rw [h2, List.get?_cons_succ, List.get?_cons_succ,
      interleave_get?_even xs ys (by simpa using hlen) j, List.get?_cons_succ]

theorem interleave_get?_odd {β : Type} :
    ∀ (xs ys : List β), xs.length = ys.length →
      ∀ j, (interleave xs ys).get? (2 * j + 1) = ys.get? j
  | [], [], _, _ => by simp [interleave]
  | [], _ :: _, hlen, _ => absurd hlen (by simp)
  | _ :: _, [], hlen, _ => absurd hlen (by simp)
  | x :: xs, y :: ys, hlen, 0 => rfl
  | x :: xs, y :: ys, hlen, j + 1 => by
    rw [interleave]
    have h2 : 2 * (j + 1) + 1 = 2 * j + 1 + 1 + 1 := by ring
    rw [h2, List.get?_cons_succ, List.get?_cons_succ,
      interleave_get?_odd xs ys (by simpa using hlen) j, List.get?_cons_succ]

theorem map_getD_range' {β : Type} (d : β) :
    ∀ (n s : Nat) (xs : List β), s + n ≤ xs.length →
      (List.range' s n).map (fun i => xs.getD i d) = (xs.drop s).take n
  | 0, s, xs, _ => by simp
  | n + 1, s, xs, h => by
    rw [List.range'_succ, List.map_cons,
      map_getD_range' d n (s + 1) xs (by omega)]
    have hs : s < xs.length := by omega
    rw [List.drop_eq_get_cons hs, List.take_cons_succ, List.getD_eq_get xs d hs]

theorem map_getD_range {β : Type} (d : β) (xs : List β) :
    (List.range xs.length).map (fun i => xs.getD i d) = xs := by
  rw [List.range_eq_range', map_getD_range' d xs.length 0 xs (by omega),
    List.drop_zero, List.take_length]

theorem flatten_pair_map {β γ : Type} (u v : β → γ) :
    ∀ (l : List β),
      (l.map (fun b => [u b, v b])).flatten = interleave (l.map u) (l.map v)
  | [] => rfl
  | a :: l => by
    rw [List.map_cons, List.flatten_cons, flatten_pair_map u v l,
      List.map_cons, List.map_cons, interleave]
    rfl

theorem twoCoord_eq (x y : List Val) (h : x.length = y.length) :
    twoCoord x y = .ok (interleave x y) := by
  have hmap : mapE
      (fun item => do
        let a ← listGet x item
        let b ← listGet y item
        pure [a, b])
      (List.range x.length) =
      .ok ((List.range x.length).map
        (fun item => [x.getD item 0, y.getD item 0])) := by
    apply mapE_ok_of_forall
    intro a ha
    have hax : a < x.length := List.mem_range.mp ha
    have hay : a < y.length := h ▸ hax
    rw [listGet_eq_ok x a 0 hax]
    show (listGet y a).bind _ = _
    rw [listGet_eq_ok y a 0 hay]
    rfl
  rw [twoCoord, hmap]
  show Except.ok _ = _
  congr 1
  rw [flatten_pair_map (fun i => x.getD i 0) (fun i => y.getD i 0)
    (List.range x.length)]
  rw [map_getD_range 0 x]
  have hy : (List.range x.length).map (fun i => y.getD i 0) = y := by
    rw [h, map_getD_range 0 y]
  rw [hy]

theorem facePersonCoords_spec (lm : List Val) (h : lm.length = 210) :
    facePersonCoords lm =
      .ok (interleave (pySliceStep lm 0 3) (pySliceStep lm 1 3),
           pySliceStep lm 2 3) := by
  have hx : (pySliceStep lm 0 3).length = 70 := by
    rw [pySliceStep_length lm 0 3 (by omega), h]
  have hy : (pySliceStep lm 1 3).length = 70 := by
    rw [pySliceStep_length lm 1 3 (by omega), h]
  rw [facePersonCoords, twoCoord_eq _ _ (by omega)]
  rfl

theorem bodyPersonCoords_spec (lm : List Val) (h : lm.length = 104) :
    bodyPersonCoords lm =
      .ok (interleave (pySliceStep lm 0 4) (pySliceStep lm 1 4),
           pySliceStep lm 2 4) := by
  have hx : (pySliceStep lm 0 4).length = 26 := by
    rw [pySliceStep_length lm 0 4 (by omega), h]
  have hy : (pySliceStep lm 1 4).length = 26 := by
    rw [pySliceStep_length lm 1 4 (by omega), h]
  rw [bodyPersonCoords, twoCoord_eq _ _ (by omega)]
  rfl

theorem get?_some_getD {β : Type} (xs : List β) (i : Nat) (d : β)
    (h : i < xs.length) : xs.get? i = some (xs.getD i d) := by
  rw [List.get?_eq_get h, List.getD_eq_get xs d h]

theorem map_interleave {β γ : Type} (f : β → γ) :
    ∀ (xs ys : List β),
      (interleave xs ys).map f = interleave (xs.map f) (ys.map f)
  | [], [] => rfl
  | [], _ :: _ => rfl
  | _ :: _, [] => rfl
  | x :: xs, y :: ys => by
    show (x :: y :: interleave xs ys).map f =
      interleave (f x :: xs.map f) (f y :: ys.map f)
    rw [List.map_cons, List.map_cons, map_interleave f xs ys]
    rfl

theorem okBind {eps a b : Type} (x : a) (f : a → Except eps b) :
    (Except.ok x >>= f) = f x := rfl

theorem errorBind {eps a b : Type} (e : eps) (f : a → Except eps b) :
    (Except.error e >>= f : Except eps b) = .error e := rfl

theorem appendSlot_zero {β : Type} (sl : SlotSeqs β) (v : β) :
    appendSlot sl 0 v = .ok (sl.1 ++ [v], sl.2) := by
  rw [appendSlot, if_pos rfl]

theorem appendSlot_one {β : Type} (sl : SlotSeqs β) (v : β) :
    appendSlot sl 1 v = .ok (sl.1, sl.2 ++ [v]) := by
  rw [appendSlot, if_neg (by omega), if_pos rfl]

theorem appendSlot_two {β : Type} (sl : SlotSeqs β) (v : β) (i : Nat)
    (h : 2 ≤ i) :
    appendSlot sl i v = .error (.indexError "tuple index out of range") := by
  rw [appendSlot, if_neg (by omega), if_neg (by omega)]

theorem handsRecover_unmatched (p : HandsPerson) (e : PyExc) (st : HandsSt)
    (hleft : containsStr (pyStr e) "left_hand" = false)
    (hright : containsStr (pyStr e) "right_hand" = false) :
    handsRecover p e st = .ok st := by
  rw [handsRecover, if_neg (by simp [hleft]), if_neg (by simp [hright])]

/-- If a frame record contains at least three valid person entries (with
well-formed face landmark lists), the person loop eventually calls
`face_2D_seq[2].append`, which raises the tuple IndexError. -/
theorem facePeople_overflow :
    ∀ (people : List FacePerson) (s2 s3 : SlotSeqs (List Val)) (i : Nat),
      i ≤ 2 → 3 ≤ i + (people.filter (fun p => p.id != -1)).length →
      (∀ p ∈ people, p.id ≠ -1 → p.landmarks.length = 210) →
      facePeople people s2 s3 i = .error (.indexError "tuple index out of range")
  | [], _, _, i, _, hcount, _ => by
    simp only [List.filter_nil, List.length_nil] at hcount; omega
  | p :: rest, s2, s3, i, hi, hcount, hlm => by
    rw [facePeople]
    by_cases hid : p.id = -1
    · rw [if_neg (by simp [hid])]
      refine facePeople_overflow rest s2 s3 i hi ?_
        (fun q hq hv => hlm q (List.mem_cons_of_mem p hq) hv)
      rwa [List.filter_cons_of_neg (by simp [hid])] at hcount
    · rw [if_pos hid]
      have hl : p.landmarks.length = 210 := hlm p (List.mem_cons_self p rest) hid
      rw [facePersonCoords_spec _ hl, okBind]
      have hcount2 : 3 ≤ i + 1 + (rest.filter (fun q => q.id != -1)).length := by
        rw [List.filter_cons_of_pos (by simp [hid])] at hcount
        simp only [List.length_cons] at hcount
        omega
      rcases Nat.lt_or_ge i 2 with h | h
      · interval_cases i
        · rw [appendSlot_zero, okBind, appendSlot_zero, okBind]
          exact facePeople_overflow rest _ _ 1 (by omega) (by omega)
            (fun q hq hv => hlm q (List.mem_cons_of_mem p hq) hv)
        · rw [appendSlot_one, okBind, appendSlot_one, okBind]
          exact facePeople_overflow rest _ _ 2 (by omega) (by omega)
            (fun q hq hv => hlm q (List.mem_cons_of_mem p hq) hv)
      · rw [appendSlot_two s2 _ i h, errorBind]

/-! ### Claim theorems -/

/-- C1: the spec claims a frame with 0 valid person entries appends a
zero-vector to BOTH slot sequences.  The code appends to slot `i` only:
on a face recording whose retained frame has no valid entry, slot 0
receives the 140/70-wide zero vectors but slot 1 receives nothing. -/
theorem C1_zero_valid_frame_pads_only_slot0 :
    get_face [[], [{ id := -1, landmarks := [1, 2, 3] }]] =
      .ok (([List.replicate 140 (0 : Val)], []),
           ([List.replicate 70 (0 : Val)], [])) := rfl

/-- C2 counterexample: the spec claims entries beyond the second valid one
are silently ignored and extraction succeeds; on a frame with three valid
person entries, `get_face` instead fails with the tuple IndexError raised by
`face_2D_seq[2].append`. -/
theorem C2_counterexample_third_person_raises :
    get_face [[], [{ id := 0, landmarks := [1, 2, 3] },
                   { id := 1, landmarks := [1, 2, 3] },
                   { id := 2, landmarks := [1, 2, 3] }]] =
      .error (.indexError "tuple index out of range") := rfl

/-- C2 (amended): valid person entries are assigned to slots 0 then 1 in
document order and each slot sequence grows by exactly one element for a
frame with two valid entries; but a frame with more than 2 valid entries
(with well-formed landmark lists) makes extraction fail with an IndexError
at the third valid entry — the extras are not silently ignored. -/
theorem C2_amended_slot_assignment :
    (∀ (s2 s3 : SlotSeqs (List Val)) (p1 p2 : FacePerson),
      p1.id ≠ -1 → p2.id ≠ -1 →
      p1.landmarks.length = 210 → p2.landmarks.length = 210 →
      ∃ c1 c2, facePersonCoords p1.landmarks = .ok c1 ∧
        facePersonCoords p2.landmarks = .ok c2 ∧
        faceFrameStep (s2, s3) [p1, p2] =
          .ok ((s2.1 ++ [c1.1], s2.2 ++ [c2.1]),
               (s3.1 ++ [c1.2], s3.2 ++ [c2.2]))) ∧
    (∀ (s2 s3 : SlotSeqs (List Val)) (people : List FacePerson),
      3 ≤ (people.filter (fun p => p.id != -1)).length →
      (∀ p ∈ people, p.id ≠ -1 → p.landmarks.length = 210) →
      faceFrameStep (s2, s3) people =
        .error (.indexError "tuple index out of range")) := by
  constructor
  · intro s2 s3 p1 p2 h1 h2 hl1 hl2
    refine ⟨_, _, facePersonCoords_spec _ hl1, facePersonCoords_spec _ hl2, ?_⟩
    rw [faceFrameStep, facePeople, if_pos h1, facePersonCoords_spec _ hl1,
      okBind, appendSlot_zero, okBind, appendSlot_zero, okBind,
      facePeople, if_pos h2, facePersonCoords_spec _ hl2,
      okBind, appendSlot_one, okBind, appendSlot_one, okBind,
      facePeople, okBind]
    rfl
  · intro s2 s3 people hcount hlm
    rw [faceFrameStep, facePeople_overflow people s2 s3 0 (by omega)
      (by omega) hlm, errorBind]

set_option maxRecDepth 8000 in
/-- C2 witness: the amended claim instantiated at two concrete frames. -/
theorem C2_amended_slot_assignment_witness :
    (∃ c1 c2,
      facePersonCoords (List.replicate 210 (0 : Val)) = .ok c1 ∧
      facePersonCoords (List.replicate 210 (0 : Val)) = .ok c2 ∧
      faceFrameStep (([], []), ([], []))
        [{ id := 0, landmarks := List.replicate 210 (0 : Val) },
         { id := 1, landmarks := List.replicate 210 (0 : Val) }] =
        .ok ((([] : List (List Val)) ++ [c1.1], ([] : List (List Val)) ++ [c2.1]),
             (([] : List (List Val)) ++ [c1.2], ([] : List (List Val)) ++ [c2.2]))) ∧
    faceFrameStep (([], []), ([], []))
        [{ id := 0, landmarks := List.replicate 210 (0 : Val) },
         { id := 1, landmarks := List.replicate 210 (0 : Val) },
         { id := 2, landmarks := List.replicate 210 (0 : Val) }] =
      .error (.indexError "tuple index out of range") :=
  ⟨C2_amended_slot_assignment.1 ([], []) ([], [])
      { id := 0, landmarks := List.replicate 210 (0 : Val) }
      { id := 1, landmarks := List.replicate 210 (0 : Val) }
      (by decide) (by decide) (by simp) (by simp),
   C2_amended_slot_assignment.2 ([], []) ([], [])
      [{ id := 0, landmarks := List.replicate 210 (0 : Val) },
       { id := 1, landmarks := List.replicate 210 (0 : Val) },
       { id := 2, landmarks := List.replicate 210 (0 : Val) }]
      (by decide) (by decide)⟩

/-- C3: the spec claims both slot sequences always have length equal to the
number of retained frame files.  With one retained face frame containing no
valid person entry, slot 0 has length 1 but slot 1 has length 0, for both the
planar and the depth sequence. -/
theorem C3_slot1_misses_zero_detection_frames :
    ((([[], []] : List (List FacePerson)).drop 1).length = 1) ∧
    get_face [[], []] =
      .ok (([List.replicate 140 (0 : Val)], []),
           ([List.replicate 70 (0 : Val)], [])) := ⟨rfl, rfl⟩

/-- C4: the spec claims a person entry missing BOTH hands gets zeros(84) /
zeros(42) substituted without error.  The code first raises
KeyError for `right_hand` (the comprehension bound is evaluated first), the
`elif 'right_hand'` recovery branch then reads the missing `left_hand`, and
that KeyError propagates uncaught: `get_hands` fails instead of
substituting zeros. -/
theorem C4_both_hands_missing_raises_keyerror :
    get_hands [[], [{ id := 7, left_hand := none, right_hand := none }], []] =
      .error (.keyError "left_hand") := rfl

/-- C5: de-interleaving per joint.  For a face landmark list of 210 floats
the planar vector has width 140 and carries the interleaved channel order
`x1,y1,x2,y2,...` (strides 0,1 mod 3) while the depth vector has width 70
and carries stride 2 mod 3; for a body `joints26` list of 104 floats the
planar vector has width 52 (strides 0,1 mod 4), the depth vector width 26
(stride 2 mod 4), and the confidence stride is discarded; for a present
hand of 63 floats the per-hand planar vector has width 42 with the same
interleaved order and the depth slice `[2::3]` has width 21. -/
theorem C5_deinterleave_spec :
    (∀ lm : List Val, lm.length = 210 →
      ∃ two third, facePersonCoords lm = .ok (two, third) ∧
        two.length = 140 ∧ third.length = 70 ∧
        (∀ j < 70, two.get? (2 * j) = lm.get? (3 * j) ∧
              two.get? (2 * j + 1) = lm.get? (3 * j + 1) ∧
              third.get? j = lm.get? (3 * j + 2))) ∧
    (∀ lm : List Val, lm.length = 104 →
      ∃ two third, bodyPersonCoords lm = .ok (two, third) ∧
        two.length = 52 ∧ third.length = 26 ∧
        (∀ j < 26, two.get? (2 * j) = lm.get? (4 * j) ∧
              two.get? (2 * j + 1) = lm.get? (4 * j + 1) ∧
              third.get? j = lm.get? (4 * j + 2))) ∧
    (∀ (lm : List Val) (key : String), lm.length = 63 →
      ∃ xy, handXY (some lm) key 63 = .ok xy ∧ xy.length = 42 ∧
        (∀ j < 21, xy.get? (2 * j) = lm.get? (3 * j) ∧
              xy.get? (2 * j + 1) = lm.get? (3 * j + 1)) ∧
        (pySliceStep lm 2 3).length = 21 ∧
        (∀ j < 21, (pySliceStep lm 2 3).get? j = lm.get? (3 * j + 2))) := by
  refine ⟨?_, ?_, ?_⟩
  · intro lm h
    have hx : (pySliceStep lm 0 3).length = 70 := by
      rw [pySliceStep_length lm 0 3 (by omega), h]
    have hy : (pySliceStep lm 1 3).length = 70 := by
      rw [pySliceStep_length lm 1 3 (by omega), h]
    refine ⟨_, _, facePersonCoords_spec lm h, ?_, ?_, ?_⟩
    · rw [interleave_length _ _ (by omega), hx]
    · rw [pySliceStep_length lm 2 3 (by omega), h]
    · intro j _
      refine ⟨?_, ?_, ?_⟩
      · rw [interleave_get?_even _ _ (by omega) j,
          pySliceStep_get? lm 0 3 j (by omega)]
        congr 1
        omega
      · rw [interleave_get?_odd _ _ (by omega) j,
          pySliceStep_get? lm 1 3 j (by omega)]
        congr 1
        omega
      · rw [pySliceStep_get? lm 2 3 j (by omega)]
        congr 1
        omega
  · intro lm h
    have hx : (pySliceStep lm 0 4).length = 26 := by
      rw [pySliceStep_length lm 0 4 (by omega), h]
    have hy : (pySliceStep lm 1 4).length = 26 := by
      rw [pySliceStep_length lm 1 4 (by omega), h]
    refine ⟨_, _, bodyPersonCoords_spec lm h, ?_, ?_, ?_⟩
    · rw [interleave_length _ _ (by omega), hx]
    · rw [pySliceStep_length lm 2 4 (by omega), h]
    · intro j _
      refine ⟨?_, ?_, ?_⟩
      · rw [interleave_get?_even _ _ (by omega) j,
          pySliceStep_get? lm 0 4 j (by omega)]
        congr 1
        omega
      · rw [interleave_get?_odd _ _ (by omega) j,
          pySliceStep_get? lm 1 4 j (by omega)]
        congr 1
        omega
      · rw [pySliceStep_get? lm 2 4 j (by omega)]
        congr 1
        omega
  · intro lm key h
    have hconc : (List.range 63).filter (fun c => (c + 1) % 3 != 0) =
        interleave ((List.range 21).map (fun j => 3 * j))
          ((List.range 21).map (fun j => 3 * j + 1)) := by decide
    have hmap : handXY (some lm) key 63 =
        .ok (((List.range 63).filter (fun c => (c + 1) % 3 != 0)).map
          (fun c => lm.getD c 0)) := by
      rw [handXY]
      apply mapE_ok_of_forall
      intro c hc
      have hc63 : c < 63 := List.mem_range.mp (List.mem_filter.mp hc).1
      show (keyGet (some lm) key).bind _ = _
      rw [keyGet]
      show listGet lm c = _
      exact listGet_eq_ok lm c 0 (by omega)
    refine ⟨_, hmap, ?_, ?_, ?_, ?_⟩
    · rw [hconc, map_interleave, interleave_length _ _ (by simp),
        List.length_map, List.length_map, List.length_range]
    · intro j hj
      constructor
      · rw [hconc, map_interleave, interleave_get?_even _ _ (by simp) j,
          List.get?_map, List.get?_map, List.get?_range hj,
          get?_some_getD lm (3 * j) 0 (by omega)]
        rfl
      · rw [hconc, map_interleave, interleave_get?_odd _ _ (by simp) j,
          List.get?_map, List.get?_map, List.get?_range hj,
          get?_some_getD lm (3 * j + 1) 0 (by omega)]
        rfl
    · rw [pySliceStep_length lm 2 3 (by omega), h]
    · intro j _
      rw [pySliceStep_get? lm 2 3 j (by omega)]
      congr 1
      omega

set_option maxRecDepth 8000 in
/-- C5 witness: the de-interleaving claim at concrete landmark lists. -/
theorem C5_deinterleave_spec_witness :
    (∃ two third,
      facePersonCoords (List.replicate 210 (0 : Val)) = .ok (two, third) ∧
      two.length = 140 ∧ third.length = 70 ∧
      (∀ j < 70,
        two.get? (2 * j) = (List.replicate 210 (0 : Val)).get? (3 * j) ∧
        two.get? (2 * j + 1) = (List.replicate 210 (0 : Val)).get? (3 * j + 1) ∧
        third.get? j = (List.replicate 210 (0 : Val)).get? (3 * j + 2))) ∧
    (∃ two third,
      bodyPersonCoords (List.replicate 104 (0 : Val)) = .ok (two, third) ∧
      two.length = 52 ∧ third.length = 26 ∧
      (∀ j < 26,
        two.get? (2 * j) = (List.replicate 104 (0 : Val)).get? (4 * j) ∧
        two.get? (2 * j + 1) = (List.replicate 104 (0 : Val)).get? (4 * j + 1) ∧
        third.get? j = (List.replicate 104 (0 : Val)).get? (4 * j + 2))) ∧
    (∃ xy, handXY (some (List.replicate 63 (0 : Val))) "left_hand" 63 = .ok xy ∧
      xy.length = 42 ∧
      (∀ j < 21,
        xy.get? (2 * j) = (List.replicate 63 (0 : Val)).get? (3 * j) ∧
        xy.get? (2 * j + 1) = (List.replicate 63 (0 : Val)).get? (3 * j + 1)) ∧
      (pySliceStep (List.replicate 63 (0 : Val)) 2 3).length = 21 ∧
      (∀ j < 21, (pySliceStep (List.replicate 63 (0 : Val)) 2 3).get? j =
        (List.replicate 63 (0 : Val)).get? (3 * j + 2))) :=
  ⟨C5_deinterleave_spec.1 _ (by simp),
   C5_deinterleave_spec.2.1 _ (by simp),
   C5_deinterleave_spec.2.2 _ "left_hand" (by simp)⟩

/-- C10: when the `try:` body of the hands person loop raises an exception
whose message contains neither the substring `left_hand` nor `right_hand`,
no recovery branch assigns the substitute vectors, and (with `hands` not
bound by an earlier iteration) the trailing `hand_2D_seq[i].append(hands)`
fails with an unbound-local error — neither zeros are substituted nor the
original exception propagated. -/
theorem C10_unmatched_exception_unbound (p : HandsPerson) (i : Nat)
    (st : HandsSt) (e : PyExc) (_hid : p.id ≠ -1)
    (htry : (handsTryBody p i st).2 = some e)
    (hleft : containsStr (pyStr e) "left_hand" = false)
    (hright : containsStr (pyStr e) "right_hand" = false)
    (hunb : (handsTryBody p i st).1.hands = none) :
    handsPersonStep p i st = .error (.unboundLocal "hands") := by
  rw [handsPersonStep]
  rcases hq : handsTryBody p i st with ⟨st1, oe⟩
  rw [hq] at htry hunb
  simp only at htry hunb
  cases oe with
  | none => simp at htry
  | some e2 =>
    have he : e2 = e := by simpa using htry
    show handsExceptBlock p e2 i st1 = _
    rw [he, handsExceptBlock, handsRecover_unmatched p e st1 hleft hright,
      okBind, hunb]
    rfl

/-- C10 witness: a valid person entry whose left hand has a present but
too-short landmark list raises a plain IndexError, and the extractor ends
in the unbound-local failure. -/
theorem C10_unmatched_exception_unbound_witness :
    handsPersonStep
      { id := 7, left_hand := some [1], right_hand := some [5, 6, 7] } 0
      { s2 := ([], []), s3 := ([], []), hands := none, hands3d := none } =
      .error (.unboundLocal "hands") :=
  C10_unmatched_exception_unbound _ 0 _ (.indexError "list index out of range")
    (by decide) rfl rfl rfl rfl

theorem round_mono_rat {q r : Rat} (h : q ≤ r) : round q ≤ round r := by
  rw [round_eq, round_eq]
  exact Int.floor_le_floor (by linarith)

theorem fract_half_floor (q : Rat) (hf : Int.fract q = 1 / 2) :
    q = (⌊q⌋ : Rat) + 1 / 2 := by
  rw [Int.fract] at hf
  linarith

theorem round_of_half (q : Rat) (hf : Int.fract q = 1 / 2) :
    round q = ⌊q⌋ + 1 := by
  rw [round_eq]
  have hq : q - (⌊q⌋ : Rat) = 1 / 2 := by rw [Int.fract] at hf; exact hf
  have h2 : q + 1 / 2 = ((⌊q⌋ + 1 : Int) : Rat) := by push_cast; linarith
  rw [h2, Int.floor_intCast]

theorem pyRound_le_round (q : Rat) : pyRound q ≤ round q := by
  rw [pyRound]
  split_ifs with hf hev
  · rw [round_of_half q hf]
    omega
  · rw [round_of_half q hf]
  · exact le_rfl

theorem pyRound_mono {q r : Rat} (h : q ≤ r) : pyRound q ≤ pyRound r := by
  rcases eq_or_lt_of_le h with rfl | hlt
  · exact le_rfl
  · conv_rhs => rw [pyRound]
    split_ifs with hf hev
    · have h1 : pyRound q ≤ round q := pyRound_le_round q
      have h2 : round q = ⌊q + 1 / 2⌋ := round_eq q
      have h4 : ⌊q + 1 / 2⌋ < ⌊r⌋ + 1 := by
        apply Int.floor_lt.mpr
        push_cast
        have := fract_half_floor r hf
        linarith
      omega
    · have h1 : pyRound q ≤ round q := pyRound_le_round q
      have h2 : round q ≤ round r := round_mono_rat (le_of_lt hlt)
      have h3 : round r = ⌊r⌋ + 1 := round_of_half r hf
      omega
    · have h1 : pyRound q ≤ round q := pyRound_le_round q
      have h2 : round q ≤ round r := round_mono_rat (le_of_lt hlt)
      omega

theorem pyRound_natCast (n : Nat) : pyRound (n : Rat) = n := by
  rw [pyRound, if_neg, round_eq]
  · apply Int.floor_eq_iff.mpr
    constructor
    · push_cast
      linarith
    · push_cast
      linarith
  · rw [Int.fract_natCast]
    norm_num

theorem splitBounds_le (N : Nat) :
    splitBound1 N ≤ splitBound2 N ∧ splitBound2 N ≤ N := by
  have hN : (0 : Rat) ≤ N := Nat.cast_nonneg N
  constructor
  · rw [splitBound1, splitBound2]
    apply Int.toNat_le_toNat
    apply pyRound_mono
    apply (div_le_div_right (by norm_num : (0:Rat) < 100)).mpr
    linarith
  · rw [splitBound2]
    have h1 : pyRound ((85 * N : Rat) / 100) ≤ pyRound ((N : Rat)) := by
      apply pyRound_mono
      rw [div_le_iff (by norm_num)]
      linarith
    rw [pyRound_natCast] at h1
    have h2 := Int.toNat_le_toNat h1
    simpa using h2


/-- C9: the partitioner returns three contiguous, non-overlapping,
order-preserving slices with boundaries `round(0.67*N)` and `round(0.85*N)`
that together cover all N slots exactly once; for N = 20 the boundaries are
13, 17 (and 20 = N). -/
theorem C9_partition_spec :
    (∀ (α : Type) (t : List α),
      (splitDataset t).1 ++ (splitDataset t).2.1 ++ (splitDataset t).2.2 = t ∧
      (splitDataset t).1.length = splitBound1 t.length ∧
      (splitDataset t).2.1.length = splitBound2 t.length - splitBound1 t.length ∧
      (splitDataset t).2.2.length = t.length - splitBound2 t.length ∧
      splitBound1 t.length ≤ splitBound2 t.length ∧
      splitBound2 t.length ≤ t.length) ∧
    splitBound1 20 = 13 ∧ splitBound2 20 = 17 := by
  constructor
  · intro α t
    obtain ⟨h12, h2N⟩ := splitBounds_le t.length
    refine ⟨?_, ?_, ?_, ?_, h12, h2N⟩
    · rw [List.append_assoc]
      show t.take (splitBound1 t.length) ++
        (((t.drop (splitBound1 t.length)).take
          (splitBound2 t.length - splitBound1 t.length)) ++
          t.drop (splitBound2 t.length)) = t
      have hd : t.drop (splitBound2 t.length) =
          (t.drop (splitBound1 t.length)).drop
            (splitBound2 t.length - splitBound1 t.length) := by
        rw [List.drop_drop]
        congr 1
        omega
      rw [hd, List.take_append_drop, List.take_append_drop]
    · show (t.take (splitBound1 t.length)).length = splitBound1 t.length
      rw [List.length_take]
      omega
    · show ((t.drop (splitBound1 t.length)).take
          (splitBound2 t.length - splitBound1 t.length)).length =
        splitBound2 t.length - splitBound1 t.length
      rw [List.length_take, List.length_drop]
      omega
    · show (t.drop (splitBound2 t.length)).length =
        t.length - splitBound2 t.length
      rw [List.length_drop]
  · constructor
    · rw [splitBound1, pyRound, if_neg, round_eq]
      · norm_num
        rfl
      · simp only [Int.fract]
        norm_num
    · rw [splitBound2, pyRound, if_neg, round_eq]
      · norm_num
        rfl
      · simp only [Int.fract]
        norm_num


theorem self_le_foldl_max : ∀ (l : List Nat) (b : Nat), b ≤ l.foldl max b
  | [], _ => le_rfl
  | c :: l, b => le_trans (Nat.le_max_left b c) (self_le_foldl_max l (max b c))

theorem mem_le_foldl_max : ∀ (l : List Nat) (b x : Nat), x ∈ l → x ≤ l.foldl max b
  | c :: l, b, x, hx => by
    rw [List.foldl_cons]
    rcases List.mem_cons.mp hx with rfl | h
    · exact le_trans (Nat.le_max_right b x) (self_le_foldl_max l (max b x))
    · exact mem_le_foldl_max l (max b c) x h

theorem foldl_max_mem : ∀ (l : List Nat) (b : Nat), l.foldl max b ∈ b :: l
  | [], b => List.mem_cons_self b []
  | c :: l, b => by
    rw [List.foldl_cons]
    rcases List.mem_cons.mp (foldl_max_mem l (max b c)) with h1 | h1
    · rcases show max b c = b ∨ max b c = c from by omega with h2 | h2
      · rw [h1, h2]
        exact List.mem_cons_self b (c :: l)
      · rw [h1, h2]
        exact List.mem_cons_of_mem b (List.mem_cons_self c l)
    · exact List.mem_cons_of_mem b (List.mem_cons_of_mem c h1)

theorem get?_replicate {γ : Type} (x : γ) :
    ∀ (n j : Nat), j < n → (List.replicate n x).get? j = some x
  | n + 1, 0, _ => rfl
  | n + 1, j + 1, h => by
    rw [List.replicate_succ, List.get?_cons_succ]
    exact get?_replicate x n j (by omega)

theorem getD_zero_eq_headD {γ : Type} (seq : List γ) (d : γ) :
    seq.getD 0 d = seq.headD d := by
  cases seq <;> rfl

/-- C6: for a non-empty collection of non-empty sequences, `padding_seq`
computes L as the maximum sequence length, right-pads every shorter sequence
with exactly `L - len(seq)` copies of the NaN-vector whose width is the
sequence's own row width, leaves entries below the original length
unchanged, makes every sequence have length exactly L, and returns L. -/
theorem C6_padding_spec {α : Type} (dataset : List (List (List (Option α))))
    (hne : dataset ≠ []) (hrows : ∀ seq ∈ dataset, seq ≠ []) :
    ∃ L out, padding_seq dataset = .ok (L, out) ∧
      (∀ seq ∈ dataset, seq.length ≤ L) ∧
      (∃ seq ∈ dataset, seq.length = L) ∧
      out.length = dataset.length ∧
      (∀ k seq, dataset.get? k = some seq →
        out.get? k = some (seq ++ List.replicate (L - seq.length)
          (List.replicate (seq.headD []).length (none : Option α))) ∧
        (seq ++ List.replicate (L - seq.length)
          (List.replicate (seq.headD []).length (none : Option α))).length = L ∧
        (∀ i < seq.length,
          (seq ++ List.replicate (L - seq.length)
            (List.replicate (seq.headD []).length (none : Option α))).get? i =
          seq.get? i) ∧
        (∀ i, seq.length ≤ i → i < L →
          (seq ++ List.replicate (L - seq.length)
            (List.replicate (seq.headD []).length (none : Option α))).get? i =
          some (List.replicate (seq.headD []).length (none : Option α)))) := by
  rcases dataset with _ | ⟨a, rest⟩
  · exact absurd rfl hne
  have hle : ∀ seq ∈ a :: rest, seq.length ≤
      (rest.map List.length).foldl max a.length := by
    intro seq hs
    rcases List.mem_cons.mp hs with rfl | h
    · exact self_le_foldl_max _ _
    · exact mem_le_foldl_max _ _ _ (List.mem_map_of_mem List.length h)
  have hmax : pyMax ((a :: rest).map List.length) =
      .ok ((rest.map List.length).foldl max a.length) := rfl
  have hout : mapE
      (fun seq =>
        if (rest.map List.length).foldl max a.length ≤ seq.length then
          pure seq
        else do
          let first ← listGet seq 0
          pure (seq ++ List.replicate
            ((rest.map List.length).foldl max a.length - seq.length)
            (List.replicate first.length (none : Option α))))
      (a :: rest) =
      .ok ((a :: rest).map (fun seq =>
        seq ++ List.replicate
          ((rest.map List.length).foldl max a.length - seq.length)
          (List.replicate (seq.headD []).length (none : Option α)))) := by
    apply mapE_ok_of_forall
    intro seq hs
    by_cases hL : (rest.map List.length).foldl max a.length ≤ seq.length
    · rw [if_pos hL, show (rest.map List.length).foldl max a.length -
        seq.length = 0 from by omega]
      rw [List.replicate_zero, List.append_nil]
      rfl
    · rw [if_neg hL]
      have hpos : 0 < seq.length := List.length_pos.mpr (hrows seq hs)
      rw [listGet_eq_ok seq 0 [] hpos, okBind, getD_zero_eq_headD]
      rfl
  refine ⟨(rest.map List.length).foldl max a.length,
    (a :: rest).map (fun seq =>
      seq ++ List.replicate
        ((rest.map List.length).foldl max a.length - seq.length)
        (List.replicate (seq.headD []).length (none : Option α))),
    ?_, hle, ?_, ?_, ?_⟩
  · rw [padding_seq, hmax, okBind, hout, okBind]
    rfl
  · rcases List.mem_map.mp (show (rest.map List.length).foldl max a.length ∈
        (a :: rest).map List.length from by
      have := foldl_max_mem (rest.map List.length) a.length
      simpa using this) with ⟨seq, hs, hlen⟩
    exact ⟨seq, hs, hlen⟩
  · rw [List.length_map]
  · intro k seq hk
    have hmem : seq ∈ a :: rest := List.get?_mem hk
    have hlen : seq.length ≤ (rest.map List.length).foldl max a.length :=
      hle seq hmem
    refine ⟨?_, ?_, ?_, ?_⟩
    · rw [List.get?_map, hk]
      rfl
    · rw [List.length_append, List.length_replicate]
      omega
    · intro i hi
      rw [List.get?_append hi]
    · intro i hi1 hi2
      rw [List.get?_append_right hi1]
      exact get?_replicate _ _ _ (by omega)


/-- C6 witness: the padding claim at a concrete two-sequence corpus with
lengths 1 and 2. -/
theorem C6_padding_spec_witness :
    ∃ L out,
      padding_seq [[[some (1 : Rat)]], [[some (2 : Rat)], [some (3 : Rat)]]] =
        .ok (L, out) ∧
      (∀ seq ∈ [[[some (1 : Rat)]], [[some (2 : Rat)], [some (3 : Rat)]]],
        seq.length ≤ L) ∧
      (∃ seq ∈ [[[some (1 : Rat)]], [[some (2 : Rat)], [some (3 : Rat)]]],
        seq.length = L) ∧
      out.length =
        ([[[some (1 : Rat)]], [[some (2 : Rat)], [some (3 : Rat)]]] :
          List (List (List (Option Rat)))).length ∧
      (∀ k seq,
        ([[[some (1 : Rat)]], [[some (2 : Rat)], [some (3 : Rat)]]] :
          List (List (List (Option Rat)))).get? k = some seq →
        out.get? k = some (seq ++ List.replicate (L - seq.length)
          (List.replicate (seq.headD []).length (none : Option Rat))) ∧
        (seq ++ List.replicate (L - seq.length)
          (List.replicate (seq.headD []).length (none : Option Rat))).length = L ∧
        (∀ i < seq.length,
          (seq ++ List.replicate (L - seq.length)
            (List.replicate (seq.headD []).length (none : Option Rat))).get? i =
          seq.get? i) ∧
        (∀ i, seq.length ≤ i → i < L →
          (seq ++ List.replicate (L - seq.length)
            (List.replicate (seq.headD []).length (none : Option Rat))).get? i =
          some (List.replicate (seq.headD []).length (none : Option Rat)))) :=
  C6_padding_spec [[[some (1 : Rat)]], [[some (2 : Rat)], [some (3 : Rat)]]]
    (by decide) (by decide)

theorem get?_enumFrom {γ : Type} :
    ∀ (l : List γ) (n i : Nat),
      (List.enumFrom n l).get? i = (l.get? i).map (fun a => (n + i, a))
  | [], _, _ => rfl
  | a :: l, n, 0 => by simp [List.enumFrom]
  | a :: l, n, i + 1 => by
    show (List.enumFrom (n + 1) l).get? i = _
    rw [get?_enumFrom l (n + 1) i, List.get?_cons_succ]
    cases l.get? i
    · rfl
    · simp
      omega

theorem get?_enum {γ : Type} (l : List γ) (i : Nat) :
    l.enum.get? i = (l.get? i).map (fun a => (i, a)) := by
  rw [List.enum, get?_enumFrom l 0 i]
  cases l.get? i <;> simp

theorem getEntry_subStep (c : Nat) (m s : Real) (j : Nat) (t : Tensor)
    (a b p : Nat) :
    getEntry (subStep c m s j t) a b p =
      (getEntry t a b p).map (fun e =>
        if p % c = j then e.bind (fun v => pyDiv (v - m) s) else e) := by
  rw [getEntry, getEntry, subStep, List.get?_map]
  cases ht : t.get? a with
  | none => rfl
  | some slot =>
    simp only [Option.map_some', Option.some_bind]
    rw [List.get?_map]
    cases hb : slot.get? b with
    | none => rfl
    | some row =>
      simp only [Option.map_some', Option.some_bind]
      rw [List.get?_map, get?_enum]
      cases hp : row.get? p with
      | none => rfl
      | some e => rfl


theorem getEntry_normLoop (c : Nat) (mf sf : Nat → Real) :
    ∀ (n jstart : Nat) (t : Tensor) (a b p : Nat),
      getEntry ((List.range' jstart n).foldl
        (fun acc j => subStep c (mf j) (sf j) j acc) t) a b p =
      (getEntry t a b p).map (fun e =>
        if jstart ≤ p % c ∧ p % c < jstart + n then
          e.bind (fun v => pyDiv (v - mf (p % c)) (sf (p % c)))
        else e)
  | 0, jstart, t, a, b, p => by
    show getEntry t a b p = _
    have hcond : ¬(jstart ≤ p % c ∧ p % c < jstart + 0) := by omega
    simp only [hcond, if_false]
    cases getEntry t a b p <;> rfl
  | n + 1, jstart, t, a, b, p => by
    rw [List.range'_succ, List.foldl_cons,
      getEntry_normLoop c mf sf n (jstart + 1) (subStep c (mf jstart) (sf jstart) jstart t) a b p,
      getEntry_subStep, Option.map_map]
    cases getEntry t a b p with
    | none => rfl
    | some e =>
      simp only [Option.map_some']
      congr 1
      show (if jstart + 1 ≤ p % c ∧ p % c < jstart + 1 + n then
          (if p % c = jstart then
            e.bind (fun v => pyDiv (v - mf jstart) (sf jstart)) else e).bind
            (fun v => pyDiv (v - mf (p % c)) (sf (p % c)))
        else (if p % c = jstart then
          e.bind (fun v => pyDiv (v - mf jstart) (sf jstart)) else e)) = _
      by_cases h1 : p % c = jstart
      · have hc1 : ¬(jstart + 1 ≤ p % c ∧ p % c < jstart + 1 + n) := by omega
        have hc2 : jstart ≤ p % c ∧ p % c < jstart + (n + 1) := by omega
        rw [if_neg hc1, if_pos h1, if_pos hc2, h1]
      · by_cases h2 : jstart + 1 ≤ p % c ∧ p % c < jstart + 1 + n
        · have hc2 : jstart ≤ p % c ∧ p % c < jstart + (n + 1) := by omega
          rw [if_pos h2, if_neg h1, if_pos hc2]
        · have hc2 : ¬(jstart ≤ p % c ∧ p % c < jstart + (n + 1)) := by omega
          rw [if_neg h2, if_neg h1, if_neg hc2]


theorem map_range_getD {γ : Type} (f : Nat → γ) (c k : Nat) (d : γ)
    (hk : k < c) : ((List.range c).map f).getD k d = f k := by
  rw [List.getD_eq_get?, List.get?_map, List.get?_range hk]
  rfl

theorem normalize_snd_get? (t : Tensor) (c k : Nat) (hk : k < c) :
    (normalize t c).2.get? k =
      some (nanmean (gather t c k), nanstd (gather t c k)) := by
  show ((List.range c).map fun i =>
      (((List.range c).map (fun i => nanmean (gather t c i))).getD i 0,
       ((List.range c).map (fun i => nanstd (gather t c i))).getD i 0)).get? k = _
  rw [List.get?_map, List.get?_range hk]
  show some
      (((List.range c).map (fun i => nanmean (gather t c i))).getD k 0,
       ((List.range c).map (fun i => nanstd (gather t c i))).getD k 0) = _
  rw [map_range_getD _ c k 0 hk, map_range_getD _ c k 0 hk]

theorem getEntry_normalize_fst (t : Tensor) (c a b p : Nat) (v : Real)
    (hc : 0 < c) (hv : getEntry t a b p = some (some v)) :
    getEntry (normalize t c).1 a b p =
      some (pyDiv (v - nanmean (gather t c (p % c)))
        (nanstd (gather t c (p % c)))) := by
  have hpc : p % c < c := Nat.mod_lt _ hc
  show getEntry ((List.range c).foldl
      (fun acc j => subStep c
        (((List.range c).map (fun i => nanmean (gather t c i))).getD j 0)
        (((List.range c).map (fun i => nanstd (gather t c i))).getD j 0)
        j acc) t) a b p = _
  set M := (List.range c).map (fun i => nanmean (gather t c i)) with hM
  set S := (List.range c).map (fun i => nanstd (gather t c i)) with hS
  rw [List.range_eq_range',
    getEntry_normLoop c (fun j => M.getD j 0) (fun j => S.getD j 0) c 0 t a b p,
    hv]
  have hcond : 0 ≤ p % c ∧ p % c < 0 + c := by omega
  rw [Option.map_some', if_pos hcond, Option.some_bind, hM, hS,
    map_range_getD _ c (p % c) 0 hpc, map_range_getD _ c (p % c) 0 hpc]

theorem mem_everyNthAux {β : Type} (step : Nat) :
    ∀ (xs : List β) (k : Nat) (x : β), x ∈ everyNthAux step k xs → x ∈ xs
  | [], _, _, hx => by rw [everyNthAux_nil] at hx; cases hx
  | a :: rest, 0, x, hx => by
    rw [everyNthAux_zero] at hx
    rcases List.mem_cons.mp hx with rfl | h
    · exact List.mem_cons_self x rest
    · exact List.mem_cons_of_mem a (mem_everyNthAux step rest (step - 1) x h)
  | a :: rest, k + 1, x, hx => by
    rw [everyNthAux_succ] at hx
    exact List.mem_cons_of_mem a (mem_everyNthAux step rest k x hx)

theorem mem_validVals_gather (t : Tensor) (c a b p : Nat) (v : Real)
    (hc : 0 < c) (hv : getEntry t a b p = some (some v)) :
    v ∈ validVals (gather t c (p % c)) := by
  rw [getEntry] at hv
  cases ht : t.get? a with
  | none => rw [ht] at hv; cases hv
  | some slot =>
    rw [ht] at hv
    simp only [Option.some_bind] at hv
    cases hb : slot.get? b with
    | none => rw [hb] at hv; cases hv
    | some row =>
      rw [hb] at hv
      simp only [Option.some_bind] at hv
      have hsl : some v ∈ pySliceStep row (p % c) c := by
        have hp := pySliceStep_get? row (p % c) c (p / c) hc
        rw [Nat.mod_add_div] at hp
        rw [hv] at hp
        exact List.get?_mem hp
      have hg : some v ∈ gather t c (p % c) := by
        rw [gather]
        exact List.mem_flatMap.mpr ⟨slot, List.get?_mem ht,
          List.mem_flatMap.mpr ⟨row, List.get?_mem hb, hsl⟩⟩
      exact List.mem_filterMap.mpr ⟨some v, hg, rfl⟩


/-- A zero nanstd of a sub-channel forces every present, non-missing entry
of that sub-channel to equal its nanmean (all squared deviations must sum
to zero).  This is also why `np.divide` by a zero std inside `normalize`
only ever sees a zero numerator. -/
theorem zero_std_forces_mean (t : Tensor) (c a b p : Nat) (v : Real)
    (hc : 0 < c) (hv : getEntry t a b p = some (some v))
    (hz : nanstd (gather t c (p % c)) = 0) :
    v = nanmean (gather t c (p % c)) := by
  have hvm : v ∈ validVals (gather t c (p % c)) :=
    mem_validVals_gather t c a b p v hc hv
  have hlen : (0 : Real) < (validVals (gather t c (p % c))).length := by
    have := List.length_pos.mpr (List.ne_nil_of_mem hvm)
    exact_mod_cast this
  have hnn : 0 ≤ varR (validVals (gather t c (p % c))) := by
    rw [varR]
    apply div_nonneg
    · apply List.sum_nonneg
      intro x hx
      rcases List.mem_map.mp hx with ⟨y, _, rfl⟩
      exact sq_nonneg _
    · positivity
  have hle0 : varR (validVals (gather t c (p % c))) ≤ 0 := by
    rw [nanstd] at hz
    exact Real.sqrt_eq_zero'.mp hz
  have hvar0 : varR (validVals (gather t c (p % c))) = 0 := le_antisymm hle0 hnn
  have hsum0 : ((validVals (gather t c (p % c))).map
      (fun x => (x - meanR (validVals (gather t c (p % c)))) ^ 2)).sum = 0 := by
    rw [varR] at hvar0
    rcases div_eq_zero_iff.mp hvar0 with h | h
    · exact h
    · exact absurd h (by positivity)
  have hterm : (v - meanR (validVals (gather t c (p % c)))) ^ 2 ≤ 0 := by
    rw [← hsum0]
    apply List.single_le_sum
    · intro x hx
      rcases List.mem_map.mp hx with ⟨y, _, rfl⟩
      exact sq_nonneg _
    · exact List.mem_map_of_mem _ hvm
  have h0 : (v - meanR (validVals (gather t c (p % c)))) ^ 2 = 0 :=
    le_antisymm hterm (sq_nonneg _)
  rw [nanmean]
  nlinarith [h0]

/-- C7 counterexample: the round-trip claim fails as stated.  A constant
sub-channel (here the single valid value 1) has nanstd exactly 0; numpy
then computes `np.divide(0.0, 0.0) = NaN`, so the originally non-missing
entry comes out of the normalizer as the missing marker — no normalized
value exists to multiply back by std, and the pre-normalization value 1 is
not reconstructed. -/
theorem C7_counterexample_zero_std_entry_lost :
    getEntry [[[some (1 : Real)]]] 0 0 0 = some (some 1) ∧
    (normalize [[[some (1 : Real)]]] 1).2.get? 0 = some (1, 0) ∧
    getEntry (normalize [[[some (1 : Real)]]] 1).1 0 0 0 = some none := by
  have h1 : validVals (gather [[[some (1 : Real)]]] 1 0) = [1] := rfl
  have hm1 : meanR [(1 : Real)] = 1 := by
    rw [meanR]
    norm_num
  have hmean : nanmean (gather [[[some (1 : Real)]]] 1 0) = 1 := by
    rw [nanmean, h1, hm1]
  have hvar : varR [(1 : Real)] = 0 := by
    rw [varR]
    simp only [hm1]
    norm_num
  have hstd : nanstd (gather [[[some (1 : Real)]]] 1 0) = 0 := by
    rw [nanstd, h1, hvar, Real.sqrt_zero]
  refine ⟨rfl, ?_, ?_⟩
  · rw [normalize_snd_get? [[[some (1 : Real)]]] 1 0 (by omega), hmean, hstd]
  · rw [getEntry_normalize_fst [[[some (1 : Real)]]] 1 0 0 0 1 (by omega) rfl]
    simp only [Nat.zero_mod]
    rw [hmean, hstd, pyDiv, if_pos rfl]

/-- C7 (amended): normalization round-trip for sub-channels whose reported
standard deviation is nonzero.  For any present, non-missing tensor entry
whose sub-channel has nonzero nanstd, the normalizer returns `(mean, std)`
with `std` nonzero, the normalized entry is `(v - mean)/std`, and
multiplying back by `std` and adding `mean` reconstructs the original
value exactly (exact-real model of the floats).  When the sub-channel's
std is zero, `np.divide` instead turns the entry into NaN and the value is
lost, as the counterexample shows. -/
theorem C7_amended_roundtrip_nonzero_std (t : Tensor) (c a b p : Nat)
    (v : Real) (hc : 0 < c) (hv : getEntry t a b p = some (some v))
    (hstd : nanstd (gather t c (p % c)) ≠ 0) :
    ∃ m std, (normalize t c).2.get? (p % c) = some (m, std) ∧ std ≠ 0 ∧
      getEntry (normalize t c).1 a b p = some (some ((v - m) / std)) ∧
      ((v - m) / std) * std + m = v := by
  have hpc : p % c < c := Nat.mod_lt _ hc
  refine ⟨nanmean (gather t c (p % c)), nanstd (gather t c (p % c)),
    normalize_snd_get? t c (p % c) hpc, hstd, ?_, ?_⟩
  · rw [getEntry_normalize_fst t c a b p v hc hv, pyDiv, if_neg hstd]
  · field_simp

/-- C7 witness: the amended round-trip at a two-entry sub-channel with
mean 0 and std 1. -/
theorem C7_amended_roundtrip_nonzero_std_witness :
    ∃ m std,
      (normalize [[[some (-1 : Real)], [some 1]]] 1).2.get? (0 % 1) =
        some (m, std) ∧ std ≠ 0 ∧
      getEntry (normalize [[[some (-1 : Real)], [some 1]]] 1).1 0 0 0 =
        some (some ((-1 - m) / std)) ∧
      ((-1 - m) / std) * std + m = -1 :=
  C7_amended_roundtrip_nonzero_std [[[some (-1 : Real)], [some 1]]] 1 0 0 0
    (-1) (by decide) rfl
    (by
      have h1 : validVals (gather [[[some (-1 : Real)], [some 1]]] 1 (0 % 1)) =
          [-1, 1] := rfl
      have hm : meanR [(-1 : Real), 1] = 0 := by
        rw [meanR]
        norm_num
      have hvar : varR [(-1 : Real), 1] = 1 := by
        rw [varR]
        simp only [hm]
        norm_num
      rw [nanstd, h1, hvar, Real.sqrt_one]
      norm_num)

theorem validVals_gather_pad (t1 t2 : Tensor) (s : List (List (Option Real)))
    (c k : Nat) (hs : ∀ row ∈ s, ∀ e ∈ row, e = (none : Option Real)) :
    validVals (gather (t1 ++ s :: t2) c k) =
      validVals (gather (t1 ++ t2) c k) := by
  rw [gather, gather, List.flatMap_append, List.flatMap_append,
    List.flatMap_cons, validVals, validVals, List.filterMap_append,
    List.filterMap_append, List.filterMap_append]
  have hmid : (s.flatMap (fun row => pySliceStep row k c)).filterMap id = [] := by
    rw [List.filterMap_eq_nil]
    intro e he
    rcases List.mem_flatMap.mp he with ⟨row, hrow, hre⟩
    rw [hs row hrow e (mem_everyNthAux c row k e hre)]
    rfl
  rw [hmid, List.nil_append]

/-- C8: the per-sub-channel statistics ignore missing entries entirely: a
corpus containing one slot made only of missing-value markers produces
exactly the same `(mean, std)` list as the corpus with that slot removed. -/
theorem C8_normalizer_ignores_missing_slot (t1 t2 : Tensor) (s : List (List (Option Real))) (c : Nat)
    (hs : ∀ row ∈ s, ∀ e ∈ row, e = (none : Option Real)) :
    (normalize (t1 ++ s :: t2) c).2 = (normalize (t1 ++ t2) c).2 := by
  show ((List.range c).map fun i =>
      (((List.range c).map (fun i => nanmean (gather (t1 ++ s :: t2) c i))).getD i 0,
       ((List.range c).map (fun i => nanstd (gather (t1 ++ s :: t2) c i))).getD i 0)) =
    ((List.range c).map fun i =>
      (((List.range c).map (fun i => nanmean (gather (t1 ++ t2) c i))).getD i 0,
       ((List.range c).map (fun i => nanstd (gather (t1 ++ t2) c i))).getD i 0))
  apply List.map_congr_left
  intro i hi
  have hic : i < c := List.mem_range.mp hi
  rw [map_range_getD _ c i 0 hic, map_range_getD _ c i 0 hic,
    map_range_getD _ c i 0 hic, map_range_getD _ c i 0 hic,
    nanmean, nanmean, nanstd, nanstd, validVals_gather_pad t1 t2 s c i hs]

/-- C8 witness: a one-slot corpus plus an all-missing slot. -/
theorem C8_normalizer_ignores_missing_slot_witness :
    (normalize ([[[some (1 : Real)]]] ++ [[(none : Option Real)]] :: []) 1).2 =
      (normalize ([[[some (1 : Real)]]] ++ []) 1).2 :=
  C8_normalizer_ignores_missing_slot [[[some (1 : Real)]]] [] [[(none : Option Real)]] 1 (by simp)


end ASL
